import Mathlib

/-!
Verification of the core logic of the `unrealemo-react-component` filterable
table: the filter-expression evaluator, the tri-state sort machine, the sort
comparator, the column-resize arithmetic, the CSV serializer, the
column-visibility operations and the per-condition value store.

The TypeScript sources are shallowly embedded:
* JavaScript cell values (`number | string | boolean | null`, plus absent
  keys read as `undefined`) become `CellValue` / `Option CellValue`; rows
  become association lists from column key to value.
* `RegExp` construction and matching is kept abstract as a `compile`
  parameter returning `Option (String → Bool)`; a failed compilation
  (the `catch` branch of `evaluateNode`) is `none`.
* `String.prototype.toLowerCase` and `localeCompare` are modelled at the
  code-point level (`lowerString`, `localeCompare`): a fixed locale whose
  order is code-point lexicographic.
* `Array.prototype.sort(cmp)`, a stable sort, is modelled as
  `List.mergeSort` with `le a b := cmp a b ≤ 0`.
* The mutable module-level `filterValuesStore` `Map` becomes an explicit
  association list threaded through `getFilterValue` / `setFilterValue`.
-/

set_option maxHeartbeats 1000000

namespace FilterableTable

/-- A JavaScript value that can appear in a table cell. -/
inductive CellValue where
  | vnum (n : Int)
  | vstr (s : String)
  | vbool (b : Bool)
  | vnull
deriving DecidableEq, Repr

/-- A row object: association list from column key to value; a key with no
entry reads as JavaScript `undefined`. -/
abbrev Row := List (String × CellValue)

/-- Property access `row[column]` (`none` = `undefined`). -/
def rowGet (row : Row) (column : String) : Option CellValue :=
  (row.find? (fun p => p.1 == column)).map (fun p => p.2)

/-- JavaScript `String(value)` coercion for cell values. -/
def cellToString : CellValue → String
  | .vnum n => toString n
  | .vstr s => s
  | .vbool b => if b then "true" else "false"
  | .vnull => "null"

/-- The `strValue` coercion in `evaluateNode` (Card.tsx line 244):
`value === null || value === undefined ? "" : String(value)`. -/
def strValueOf : Option CellValue → String
  | none => ""
  | some .vnull => ""
  | some v => cellToString v

/-- Filter group operator (types.ts `FilterOperator`). -/
inductive FilterOperator where
  | AND
  | OR
deriving DecidableEq, Repr

/-- Filter tree node (types.ts `FilterNode`): a tagged union of
`condition` and `group`. -/
inductive FilterNode where
  | condition (id column regex : String) (caseSensitive : Bool)
  | group (id : String) (operator : FilterOperator) (children : List FilterNode)
deriving Repr

/-- A regex engine: `compile pattern caseSensitive` is `none` when
`new RegExp(pattern, flags)` throws, otherwise the `test` predicate of the
compiled regex. -/
abbrev RegexEngine := String → Bool → Option (String → Bool)

mutual
/-- The evaluator produced by `createEvaluator` (Card.tsx lines 236-257).
An empty `regex` matches unconditionally; a failed compilation evaluates to
`false`; a group with no children is `true`; `AND` uses `every`, `OR` uses
`some` over the children in order. -/
def evaluateNode (compile : RegexEngine) (row : Row) : FilterNode → Bool
  | .condition _ column regex caseSensitive =>
    if regex = "" then true
    else
      match compile regex caseSensitive with
      | none => false
      | some test => test (strValueOf (rowGet row column))
  | .group _ operator children =>
    if children.isEmpty then true
    else
      match operator with
      | .AND => evaluateChildrenAll compile row children
      | .OR => evaluateChildrenAny compile row children

/-- Conjunction over children (`children.every`). -/
def evaluateChildrenAll (compile : RegexEngine) (row : Row) : List FilterNode → Bool
  | [] => true
  | c :: cs => evaluateNode compile row c && evaluateChildrenAll compile row cs

/-- Disjunction over children (`children.some`). -/
def evaluateChildrenAny (compile : RegexEngine) (row : Row) : List FilterNode → Bool
  | [] => false
  | c :: cs => evaluateNode compile row c || evaluateChildrenAny compile row cs
end

theorem evaluateChildrenAll_eq_all (compile : RegexEngine) (row : Row)
    (cs : List FilterNode) :
    evaluateChildrenAll compile row cs = cs.all (evaluateNode compile row) := by
  induction cs with
  | nil => rfl
  | cons c cs ih => simp [evaluateChildrenAll, List.all_cons, ih]

theorem evaluateChildrenAny_eq_any (compile : RegexEngine) (row : Row)
    (cs : List FilterNode) :
    evaluateChildrenAny compile row cs = cs.any (evaluateNode compile row) := by
  induction cs with
  | nil => rfl
  | cons c cs ih => simp [evaluateChildrenAny, List.any_cons, ih]

/-- C1: for every regex engine, row and tree, `evaluateNode` realizes the
reference truth table: a condition with empty regex is `true`; a group with
no children is `true` under both operators; an `AND` group is the
conjunction (`List.all`, examining children in order, short-circuiting) and
an `OR` group with at least one child the disjunction (`List.any`) of its
children (the zero-children clause takes precedence for `OR`). -/
theorem evaluate_reference_semantics (compile : RegexEngine) (row : Row) :
    (∀ id column caseSensitive,
      evaluateNode compile row (.condition id column "" caseSensitive) = true)
    ∧ (∀ id operator, evaluateNode compile row (.group id operator []) = true)
    ∧ (∀ id children, evaluateNode compile row (.group id .AND children)
        = children.all (evaluateNode compile row))
    ∧ (∀ id child children,
        evaluateNode compile row (.group id .OR (child :: children))
        = (child :: children).any (evaluateNode compile row)) := by
  refine ⟨fun id column caseSensitive => by simp [evaluateNode],
    fun id operator => by cases operator <;> rfl,
    fun id children => ?_, fun id child children => ?_⟩
  · cases children with
    | nil => rfl
    | cons c cs => simp [evaluateNode, evaluateChildrenAll_eq_all]
  · simp [evaluateNode, evaluateChildrenAny_eq_any]

/-- C2: a condition whose non-empty pattern fails to compile evaluates to
`false` (fails closed), and evaluation is total: every tree evaluates to a
boolean, never an error (errors are absorbed by the `catch` branch, which
is the `none` case of the engine). -/
theorem condition_fails_closed (compile : RegexEngine) (row : Row)
    (id column regex : String) (caseSensitive : Bool)
    (hne : regex ≠ "") (hfail : compile regex caseSensitive = none) :
    evaluateNode compile row (.condition id column regex caseSensitive) = false
    ∧ ∀ t : FilterNode, evaluateNode compile row t = true
        ∨ evaluateNode compile row t = false := by
  refine ⟨by simp [evaluateNode, hne, hfail], fun t => ?_⟩
  cases h : evaluateNode compile row t
  · exact Or.inr rfl
  · exact Or.inl rfl

/-- Witness for C2: the always-failing engine on the malformed pattern `(`
makes the condition evaluate to `false` on a concrete row. -/
theorem condition_fails_closed_witness :
    evaluateNode (fun _ _ => none) [("name", .vstr "Ann")]
      (.condition "c1" "name" "(" false) = false :=
  (condition_fails_closed (fun _ _ => none) [("name", .vstr "Ann")]
    "c1" "name" "(" false (by decide) rfl).1

/-! ## Sort state machine (FilterableTable.tsx lines 30-33, 66-75) -/

/-- Sort direction (types.ts `SortDirection`, minus the `null` case which is
carried by the surrounding `Option`). -/
inductive SortDirection where
  | asc
  | desc
deriving DecidableEq, Repr

/-- Sort state: `{column: key|null, direction: asc|desc|null}`. -/
structure SortState where
  column : Option String
  direction : Option SortDirection
deriving DecidableEq, Repr

/-- The state update performed by `handleSortChange` on a header click. -/
def handleSortChange (column : String) (current : SortState) : SortState :=
  if current.column = some column then
    match current.direction with
    | some .asc => ⟨some column, some .desc⟩
    | some .desc => ⟨none, none⟩
    | none => ⟨some column, some .asc⟩
  else ⟨some column, some .asc⟩

/-- C3: the tri-state sort cycle. A column that is not the active sorted
column (different column or no active column) yields `{column, asc}`
irrespective of prior state; the currently-asc column yields
`{column, desc}`; the currently-desc column yields `{null, null}`; and
three successive activations of the same column from the no-sort state
return to `{null, null}`. -/
theorem handleSortChange_cycle (column : String) (current : SortState) :
    (current.column ≠ some column →
      handleSortChange column current = ⟨some column, some .asc⟩)
    ∧ (current.column = some column → current.direction = none →
      handleSortChange column current = ⟨some column, some .asc⟩)
    ∧ (current.column = some column → current.direction = some .asc →
      handleSortChange column current = ⟨some column, some .desc⟩)
    ∧ (current.column = some column → current.direction = some .desc →
      handleSortChange column current = ⟨none, none⟩)
    ∧ handleSortChange column
        (handleSortChange column (handleSortChange column ⟨none, none⟩))
      = ⟨none, none⟩ := by
  refine ⟨fun h => by simp [handleSortChange, h],
    fun h h' => by simp [handleSortChange, h, h'],
    fun h h' => by simp [handleSortChange, h, h'],
    fun h h' => by simp [handleSortChange, h, h'], ?_⟩
  simp [handleSortChange]

/-- Witness for C3 at concrete inputs: clicking `"age"` while `"name"` is
sorted ascending resets to `{age, asc}`; clicking `"name"` again instead
flips to descending. -/
theorem handleSortChange_cycle_witness :
    handleSortChange "age" ⟨some "name", some .asc⟩ = ⟨some "age", some .asc⟩
    ∧ handleSortChange "name" ⟨some "name", some .asc⟩
      = ⟨some "name", some .desc⟩ := by
  constructor
  · exact (handleSortChange_cycle "age" ⟨some "name", some .asc⟩).1 (by decide)
  · exact (handleSortChange_cycle "name" ⟨some "name", some .asc⟩).2.2.1
      rfl rfl

/-! ## Sort comparator (FilterableTable.tsx lines 97-121) -/

/-- The value `getRawValue` produces: `null`/`undefined` have been coerced
to the empty string, numbers and booleans are kept, everything else is
string-coerced. -/
inductive RawValue where
  | rnum (n : Int)
  | rbool (b : Bool)
  | rstr (s : String)
deriving DecidableEq, Repr

/-- `getRawValue(row, column)` (FilterableTable.tsx lines 97-102). -/
def getRawValue (row : Row) (column : String) : RawValue :=
  match rowGet row column with
  | none => .rstr ""
  | some .vnull => .rstr ""
  | some (.vnum n) => .rnum n
  | some (.vbool b) => .rbool b
  | some (.vstr s) => .rstr s

/-- `String(value)` on a raw value. -/
def rawToString : RawValue → String
  | .rnum n => toString n
  | .rbool b => if b then "true" else "false"
  | .rstr s => s

/-- Code-point lexicographic strict order on character lists. -/
def charLtList : List Char → List Char → Bool
  | [], [] => false
  | [], _ :: _ => true
  | _ :: _, [] => false
  | a :: as, b :: bs =>
    if a.toNat < b.toNat then true
    else if b.toNat < a.toNat then false
    else charLtList as bs

/-- Model of `String.prototype.toLowerCase` (code-point lowercasing). -/
def lowerString (s : String) : String := String.mk (s.data.map Char.toLower)

/-- Model of `String.prototype.localeCompare` in a fixed locale whose
collation is code-point lexicographic: negative, zero or positive sign. -/
def localeCompare (a b : String) : Int :=
  if charLtList a.data b.data then -1
  else if charLtList b.data a.data then 1
  else 0

/-- The comparison computed inside `sortData`'s comparator before the
direction sign is applied (FilterableTable.tsx lines 111-118). -/
def compareValues (aVal bVal : RawValue) : Int :=
  match aVal, bVal with
  | .rnum x, .rnum y => x - y
  | .rbool x, .rbool y => if x = y then 0 else if x then 1 else -1
  | _, _ =>
    localeCompare (lowerString (rawToString aVal)) (lowerString (rawToString bVal))

/-- The full comparator over two rows for the active column. -/
def rowCompare (column : String) (a b : Row) : Int :=
  compareValues (getRawValue a column) (getRawValue b column)

/-- The comparator with the direction applied: `asc` keeps the sign,
`desc` negates it (FilterableTable.tsx line 119). -/
def directedCompare (direction : SortDirection) (column : String)
    (a b : Row) : Int :=
  match direction with
  | .asc => rowCompare column a b
  | .desc => - rowCompare column a b

/-- The boolean `le` relation induced by the comparator; JavaScript's
stable `Array.prototype.sort` with comparator `cmp` is modelled as
`List.mergeSort` under `le a b := cmp a b ≤ 0`. -/
def rowLE (direction : SortDirection) (column : String) (a b : Row) : Bool :=
  directedCompare direction column a b ≤ 0

/-- `sortData` (FilterableTable.tsx lines 104-121): identity when either
sort-state field is null, otherwise a stable sort by the comparator. -/
def sortData (sortState : SortState) (dataToSort : List Row) : List Row :=
  match sortState.column, sortState.direction with
  | some column, some direction =>
    List.mergeSort dataToSort (rowLE direction column)
  | _, _ => dataToSort

/-- The comparator exactly as the specification words it: both values
numeric means numeric difference; both boolean means false orders before
true; otherwise the cell values are string-coerced with `null`/`undefined`
(absent) going to the empty string and compared case-insensitively by the
locale-aware comparison; `asc` keeps the sign and `desc` negates it. -/
def specComparator (direction : SortDirection) (column : String)
    (a b : Row) : Int :=
  let va := rowGet a column
  let vb := rowGet b column
  let coerce : Option CellValue → String := fun v =>
    match v with
    | none => ""
    | some .vnull => ""
    | some w => cellToString w
  let c : Int :=
    match va, vb with
    | some (.vnum x), some (.vnum y) => x - y
    | some (.vbool x), some (.vbool y) =>
      (if x then (1 : Int) else 0) - (if y then (1 : Int) else 0)
    | _, _ =>
      localeCompare (lowerString (coerce va)) (lowerString (coerce vb))
  match direction with
  | .asc => c
  | .desc => -c

/-- Raw-value coercion agrees with direct coercion of the cell value. -/
theorem rawToString_getRawValue (row : Row) (column : String) :
    rawToString (getRawValue row column)
    = (match rowGet row column with
       | none => ""
       | some .vnull => ""
       | some w => cellToString w) := by
  rcases h : rowGet row column with _ | v
  · simp [getRawValue, h, rawToString]
  · cases v <;> simp [getRawValue, h, rawToString, cellToString]

/-- C5: the comparator implemented by `sortData` coincides with the
comparator described by the specification, for every pair of rows, active
column and direction. -/
theorem comparator_matches_spec (direction : SortDirection) (column : String)
    (a b : Row) :
    directedCompare direction column a b = specComparator direction column a b := by
  have hcore : rowCompare column a b
      = specComparator .asc column a b := by
    have ha := rawToString_getRawValue a column
    have hb := rawToString_getRawValue b column
    rcases hva : rowGet a column with _ | va <;>
      rcases hvb : rowGet b column with _ | vb
    · simp [rowCompare, getRawValue, hva, hvb, specComparator, compareValues,
        rawToString]
    · cases vb <;>
        simp [rowCompare, getRawValue, hva, hvb, specComparator,
          compareValues, rawToString, cellToString]
    · cases va <;>
        simp [rowCompare, getRawValue, hva, hvb, specComparator,
          compareValues, rawToString, cellToString]
    · cases va <;> cases vb <;>
        (simp [rowCompare, getRawValue, hva, hvb, specComparator,
           compareValues, rawToString, cellToString]
         try (rename_i x y
              cases x <;> cases y <;> decide))
  cases direction with
  | asc => simpa [directedCompare] using hcore
  | desc =>
    simp only [directedCompare, hcore]
    simp [specComparator]

/-! ## Stability and idempotence of the sort (claim C4) -/

theorem charLtList_asymm :
    ∀ as bs : List Char, charLtList as bs = true → charLtList bs as = false
  | [], [], h => by simp [charLtList] at h
  | [], _ :: _, _ => by simp [charLtList]
  | _ :: _, [], h => by simp [charLtList] at h
  | a :: as, b :: bs, h => by
    simp only [charLtList] at h ⊢
    by_cases hab : a.toNat < b.toNat
    · have : ¬ b.toNat < a.toNat := by omega
      simp [hab, this]
    · by_cases hba : b.toNat < a.toNat
      · simp [hab, hba] at h
      · have : a.toNat = b.toNat := by omega
        simp [hab, hba] at h ⊢
        exact charLtList_asymm as bs h

theorem localeCompare_antisymm (a b : String) :
    localeCompare a b = - localeCompare b a := by
  unfold localeCompare
  rcases h1 : charLtList a.data b.data with _ | _ <;>
    rcases h2 : charLtList b.data a.data with _ | _ <;> simp
  exact absurd (charLtList_asymm _ _ h2) (by simp [h1])

theorem compareValues_antisymm (x y : RawValue) :
    compareValues x y = - compareValues y x := by
  cases x <;> cases y <;>
    simp only [compareValues] <;>
    first
    | omega
    | (rename_i p q; cases p <;> cases q <;> decide)
    | rw [localeCompare_antisymm]

theorem directedCompare_antisymm (direction : SortDirection) (column : String)
    (a b : Row) :
    directedCompare direction column a b
    = - directedCompare direction column b a := by
  cases direction <;>
    simp [directedCompare, rowCompare, compareValues_antisymm
      (getRawValue a column) (getRawValue b column)]

theorem rowLE_total (direction : SortDirection) (column : String) (a b : Row) :
    rowLE direction column a b || rowLE direction column b a := by
  simp only [rowLE, directedCompare_antisymm direction column a b]
  simp only [Bool.or_eq_true, decide_eq_true_eq]
  omega

/-- Merging commutes with mapping an embedding into the comparator. -/
theorem merge_map {α β : Type} (f : β → α) (le : α → α → Bool) :
    ∀ xs ys : List β,
      List.merge (xs.map f) (ys.map f) le
      = (List.merge xs ys (fun a b => le (f a) (f b))).map f
  | [], ys => by simp [List.merge]
  | x :: xs, [] => by simp [List.merge]
  | x :: xs, y :: ys => by
    simp only [List.map_cons, List.merge]
    split
    · rw [show f y :: List.map f ys = List.map f (y :: ys) from rfl,
        merge_map f le xs (y :: ys)]
      simp
    · rw [show f x :: List.map f xs = List.map f (x :: xs) from rfl,
        merge_map f le (x :: xs) ys]
      simp

/-- Merge sort commutes with mapping an embedding into the comparator. -/
theorem mergeSort_map {α β : Type} (f : β → α) (le : α → α → Bool) :
    ∀ l : List β,
      List.mergeSort (l.map f) le
      = (List.mergeSort l (fun a b => le (f a) (f b))).map f
  | [] => by simp [List.mergeSort]
  | [a] => by simp [List.mergeSort]
  | a :: b :: xs => by
    have h1 : (List.splitInTwo ⟨a :: b :: xs, rfl⟩).1.1.length
        < xs.length + 1 + 1 := by
      simp [List.splitInTwo_fst]; omega
    have h2 : (List.splitInTwo ⟨a :: b :: xs, rfl⟩).2.1.length
        < xs.length + 1 + 1 := by
      simp [List.splitInTwo_snd]; omega
    rw [show (a :: b :: xs).map f = f a :: f b :: xs.map f from rfl]
    rw [List.mergeSort, List.mergeSort]
    simp only [List.splitInTwo_fst, List.splitInTwo_snd, List.length_cons,
      List.length_map]
    rw [show (f a :: f b :: xs.map f) = (a :: b :: xs).map f from rfl]
    rw [← List.map_take, ← List.map_drop]
    rw [mergeSort_map f le ((a :: b :: xs).take ((xs.length + 1 + 1 + 1) / 2))]
    rw [mergeSort_map f le ((a :: b :: xs).drop ((xs.length + 1 + 1 + 1) / 2))]
    rw [merge_map]
termination_by l => l.length
decreasing_by
  · simpa using h1
  · simpa using h2

/-- Sorting a list of rows is sorting its attached copy, then forgetting
the membership proofs. -/
theorem mergeSort_attach (direction : SortDirection) (column : String)
    (l : List Row) :
    List.mergeSort l (rowLE direction column)
    = (List.mergeSort l.attach
        (fun a b => rowLE direction column a.1 b.1)).map Subtype.val := by
  conv_lhs => rw [← List.attach_map_subtype_val l]
  rw [mergeSort_map]

/-- C4 (amended): provided the comparator is transitive across the rows of
the list being sorted (automatic for uniformly-typed column values; it can
fail when a column mixes numbers and strings), the sort is stable — rows
comparing equal keep their relative order — and idempotent — re-sorting
the sorted output changes nothing. -/
theorem sortData_stable_idempotent (direction : SortDirection)
    (column : String) (l : List Row)
    (htrans : ∀ a ∈ l, ∀ b ∈ l, ∀ c ∈ l,
      rowLE direction column a b = true → rowLE direction column b c = true →
      rowLE direction column a c = true) :
    (∀ a b : Row, directedCompare direction column a b = 0 →
      List.Sublist [a, b] l →
      List.Sublist [a, b] (sortData ⟨some column, some direction⟩ l))
    ∧ sortData ⟨some column, some direction⟩
        (sortData ⟨some column, some direction⟩ l)
      = sortData ⟨some column, some direction⟩ l := by
  have trans' : ∀ a b c : {x : Row // x ∈ l},
      (fun a b : {x : Row // x ∈ l} => rowLE direction column a.1 b.1) a b →
      (fun a b : {x : Row // x ∈ l} => rowLE direction column a.1 b.1) b c →
      (fun a b : {x : Row // x ∈ l} => rowLE direction column a.1 b.1) a c :=
    fun a b c hab hbc => htrans a.1 a.2 b.1 b.2 c.1 c.2 hab hbc
  have total' : ∀ a b : {x : Row // x ∈ l},
      (fun a b : {x : Row // x ∈ l} => rowLE direction column a.1 b.1) a b ||
      (fun a b : {x : Row // x ∈ l} => rowLE direction column a.1 b.1) b a :=
    fun a b => rowLE_total direction column a.1 b.1
  constructor
  · intro a b hab hsub
    have hsub' : List.Sublist [a, b] (l.attach.map Subtype.val) := by
      rwa [List.attach_map_subtype_val]
    obtain ⟨c, hcsub, hceq⟩ := List.sublist_map_iff.mp hsub'
    match c, hceq with
    | [a', b'], hceq =>
      simp only [List.map_cons, List.map_nil, List.cons.injEq,
        and_true] at hceq
      obtain ⟨ha', hb'⟩ := hceq
      have hpair : List.Pairwise
          (fun x y : {x : Row // x ∈ l} =>
            rowLE direction column x.1 y.1 = true) [a', b'] := by
        refine List.pairwise_cons.mpr ⟨?_, by simp⟩
        intro y hy
        have hyb : y = b' := by simpa using hy
        subst hyb
        rw [← ha', ← hb']
        simp [rowLE, hab]
      have hstab := List.sublist_mergeSort trans' total' hpair hcsub
      rw [ha', hb']
      show List.Sublist [a'.1, b'.1]
        (List.mergeSort l (rowLE direction column))
      rw [mergeSort_attach]
      exact hstab.map Subtype.val
  · have hsorted : List.Pairwise
        (fun x y : Row => rowLE direction column x y = true)
        (List.mergeSort l (rowLE direction column)) := by
      rw [mergeSort_attach]
      exact (List.sorted_mergeSort trans' total' l.attach).map Subtype.val
        (fun a b h => h)
    simp only [sortData]
    exact List.mergeSort_of_sorted hsorted

/-- Witness for C4 (amended) at a concrete uniformly-numeric list: the
equal pair keeps its order and re-sorting is the identity. -/
theorem sortData_stable_idempotent_witness :
    (List.Sublist
      [[("k", CellValue.vnum 1), ("id", CellValue.vnum 1)],
       [("k", CellValue.vnum 1), ("id", CellValue.vnum 2)]]
      (sortData ⟨some "k", some .asc⟩
        [[("k", CellValue.vnum 1), ("id", CellValue.vnum 1)],
         [("k", CellValue.vnum 2), ("id", CellValue.vnum 3)],
         [("k", CellValue.vnum 1), ("id", CellValue.vnum 2)]]))
    ∧ sortData ⟨some "k", some .asc⟩
        (sortData ⟨some "k", some .asc⟩
          [[("k", CellValue.vnum 1), ("id", CellValue.vnum 1)],
           [("k", CellValue.vnum 2), ("id", CellValue.vnum 3)],
           [("k", CellValue.vnum 1), ("id", CellValue.vnum 2)]])
      = sortData ⟨some "k", some .asc⟩
          [[("k", CellValue.vnum 1), ("id", CellValue.vnum 1)],
           [("k", CellValue.vnum 2), ("id", CellValue.vnum 3)],
           [("k", CellValue.vnum 1), ("id", CellValue.vnum 2)]] := by
  have h := sortData_stable_idempotent .asc "k"
    [[("k", CellValue.vnum 1), ("id", CellValue.vnum 1)],
     [("k", CellValue.vnum 2), ("id", CellValue.vnum 3)],
     [("k", CellValue.vnum 1), ("id", CellValue.vnum 2)]]
    (by decide)
  exact ⟨h.1 _ _ (by decide) (by decide), h.2⟩

/-- C4 (counterexample): with the active column holding the number `10` on
one row and the string `"10"` on another, the two rows compare equal, they
appear in this order in the input, and yet the sorted output reverses
them: the sort is not stable once a column mixes value types, because the
comparator is not transitive there (`9 < 10` numerically but `"10" < "9"`
as strings). -/
theorem sort_stability_counterexample :
    rowCompare "k" [("k", CellValue.vnum 10)] [("k", CellValue.vstr "10")] = 0
    ∧ List.Sublist
        [[("k", CellValue.vnum 10)], [("k", CellValue.vstr "10")]]
        [[("k", CellValue.vnum 9)], [("k", CellValue.vnum 10)],
         [("k", CellValue.vstr "10")]]
    ∧ sortData ⟨some "k", some .asc⟩
        [[("k", CellValue.vnum 9)], [("k", CellValue.vnum 10)],
         [("k", CellValue.vstr "10")]]
      = [[("k", CellValue.vstr "10")], [("k", CellValue.vnum 9)],
         [("k", CellValue.vnum 10)]]
    ∧ ¬ List.Sublist
        [[("k", CellValue.vnum 10)], [("k", CellValue.vstr "10")]]
        [[("k", CellValue.vstr "10")], [("k", CellValue.vnum 9)],
         [("k", CellValue.vnum 10)]] := by
  refine ⟨by decide, by decide, ?_, by decide⟩
  have h1 : rowLE .asc "k" [("k", CellValue.vnum 9)]
      [("k", CellValue.vnum 10)] = true := by decide
  have h2 : rowLE .asc "k" [("k", CellValue.vnum 9)]
      [("k", CellValue.vstr "10")] = false := by decide
  simp [sortData, List.mergeSort, List.merge, h1, h2]

/-! ## Column resize engine (DataTable.tsx lines 87-115) -/

/-- The width update computed by `handleResizeMove` for one pointer
movement, given the snapshot taken at gesture start (`leftStartWidth`,
`rightStartWidth`, `minWidth = 50`) and the pointer delta
`diff = e.clientX - startX`. The code returns without updating when
`diff = 0`, modelled as `none`; otherwise the clamped pair of new widths
is published. -/
def handleResizeMove (leftStartWidth rightStartWidth minWidth diff : Int) :
    Option (Int × Int) :=
  if diff = 0 then none
  else
    let totalWidth := leftStartWidth + rightStartWidth
    let newLeftWidth := leftStartWidth + diff
    let newRightWidth := rightStartWidth - diff
    let p :=
      if newLeftWidth < minWidth then (minWidth, totalWidth - minWidth)
      else (newLeftWidth, newRightWidth)
    let q :=
      if p.2 < minWidth then (totalWidth - minWidth, minWidth)
      else p
    some q

/-- C6 (counterexample): when the adjacent pair starts narrower than twice
the 50-unit floor (left 30, right 40), a 5-unit drag produces widths
(20, 50): the combined width is conserved but the left column ends up
below the floor, contradicting the unconditional no-column-below-floor
claim. -/
theorem resize_floor_counterexample :
    handleResizeMove 30 40 50 5 = some (20, 50) ∧ (20 : Int) < 50 := by
  constructor
  · decide
  · decide

/-- C6 (amended): for every pointer movement with a non-zero delta the
update conserves the combined width of the two columns unconditionally;
the 50-unit floor holds for both columns provided the pair's combined
starting width is at least 100 (twice the floor). -/
theorem resize_conservation (leftStartWidth rightStartWidth diff : Int)
    (hdiff : diff ≠ 0) :
    ∃ p : Int × Int,
      handleResizeMove leftStartWidth rightStartWidth 50 diff = some p
      ∧ p.1 + p.2 = leftStartWidth + rightStartWidth
      ∧ (100 ≤ leftStartWidth + rightStartWidth →
          50 ≤ p.1 ∧ 50 ≤ p.2) := by
  simp only [handleResizeMove, if_neg hdiff]
  split
  · split
    · exact ⟨_, rfl, by omega, fun h => by omega⟩
    · exact ⟨_, rfl, by omega, fun h => by constructor <;> omega⟩
  · split
    · exact ⟨_, rfl, by omega, fun h => by omega⟩
    · refine ⟨_, rfl, by omega, fun h => ?_⟩
      constructor <;> omega

/-- Witness for C6 (amended): a concrete drag (left 200, right 300, delta
-180) produces a clamped pair conserving the combined width and
respecting the floor. -/
theorem resize_conservation_witness :
    ∃ p : Int × Int,
      handleResizeMove 200 300 50 (-180) = some p
      ∧ p.1 + p.2 = 200 + 300
      ∧ (100 ≤ (200 : Int) + 300 → 50 ≤ p.1 ∧ 50 ≤ p.2) :=
  resize_conservation 200 300 (-180) (by decide)

/-! ## CSV exporter (FilterableTable.tsx lines 130-146) -/

/-- The doubling performed by `str.replace(/"/g, \x22\x22\x22\x22)`: every
double-quote character is replaced by two. -/
def escapeQuotes (s : String) : String :=
  String.mk (s.data.foldr
    (fun c acc => if c = '"' then '"' :: '"' :: acc else c :: acc) [])

/-- The quoting test `str.includes(",") || str.includes(%22) ||
str.includes("\n")`. -/
def needsQuoting (s : String) : Bool :=
  s.data.contains ',' || s.data.contains '"' || s.data.contains '\n'

/-- Serialization of one data cell in `handleExport` (lines 136-144):
`null`/`undefined` become the empty string, booleans become `Yes`/`No`,
otherwise the string coercion, quoted (with internal quotes doubled) when
it contains a comma, a double quote or a newline. -/
def exportCellValue : Option CellValue → String
  | none => ""
  | some .vnull => ""
  | some (.vbool b) => if b then "Yes" else "No"
  | some v =>
    let str := cellToString v
    if needsQuoting str then "\"" ++ escapeQuotes str ++ "\"" else str

/-- The CSV text assembled by `handleExport` (line 146): the header line is
the raw labels joined by commas; each data line joins the serialized cells;
lines are joined by newlines. -/
def csvContent (labels : List String) (rows : List (List String)) : String :=
  String.intercalate "\n"
    (String.intercalate "," labels :: rows.map (String.intercalate ","))

/-- The whole export pipeline on the chosen columns (key and label pairs)
and rows: header from labels, body from `exportCellValue` per cell. -/
def handleExport (columns : List (String × String)) (rows : List Row) :
    String :=
  csvContent (columns.map (fun c => c.2))
    (rows.map (fun row => columns.map
      (fun c => exportCellValue (rowGet row c.1))))

/-- Cell serialization as the specification words it, with the escaping
expressed independently: membership via `List.any` and doubling via
`List.flatMap`. -/
def specCsvCell : Option CellValue → String
  | none => ""
  | some .vnull => ""
  | some (.vbool b) => if b then "Yes" else "No"
  | some v =>
    let s := cellToString v
    if s.data.any (fun c => c = ',' || c = '"' || c = '\n') then
      "\"" ++ String.mk (s.data.flatMap
        (fun c => if c = '"' then ['"', '"'] else [c])) ++ "\""
    else s

theorem escapeQuotes_eq_flatMap (s : String) :
    escapeQuotes s
    = String.mk (s.data.flatMap
        (fun c => if c = '"' then ['"', '"'] else [c])) := by
  unfold escapeQuotes
  congr 1
  induction s.data with
  | nil => rfl
  | cons c cs ih =>
    by_cases hc : c = '"' <;> simp [hc, List.foldr_cons, ih]

theorem needsQuoting_eq_any (s : String) :
    needsQuoting s
    = s.data.any (fun c => c = ',' || c = '"' || c = '\n') := by
  unfold needsQuoting
  induction s.data with
  | nil => rfl
  | cons c cs ih =>
    have e1 : (c == ',') = decide (c = ',') := by
      by_cases h : c = ',' <;> simp [h]
    have e2 : (c == '"') = decide (c = '"') := by
      by_cases h : c = '"' <;> simp [h]
    have e3 : (c == '\n') = decide (c = '\n') := by
      by_cases h : c = '\n' <;> simp [h]
    simp only [List.contains_cons, List.any_cons, ← ih, Bool.beq_comm,
      e1, e2, e3]
    by_cases h1 : c = ',' <;> by_cases h2 : c = '"' <;>
      by_cases h3 : c = '\n' <;>
      simp [h1, h2, h3, Bool.or_assoc, Bool.or_comm, Bool.or_left_comm]

/-- C7: every data cell serializes exactly as specified — `null` and
`undefined` to the empty string, booleans to `Yes`/`No`, other values
string-coerced and quoted with internal quotes doubled whenever a comma,
double quote or newline occurs — and in particular the value
`Doe, "The Judge"` serializes to `"Doe, ""The Judge"""`. -/
theorem csv_cell_serialization :
    (∀ v : Option CellValue, exportCellValue v = specCsvCell v)
    ∧ exportCellValue (some (.vstr "Doe, \"The Judge\""))
      = "\"Doe, \"\"The Judge\"\"\"" := by
  constructor
  · intro v
    match v with
    | none => rfl
    | some .vnull => rfl
    | some (.vbool b) => rfl
    | some (.vnum n) =>
      simp only [exportCellValue, specCsvCell, needsQuoting_eq_any,
        escapeQuotes_eq_flatMap]
    | some (.vstr s) =>
      simp only [exportCellValue, specCsvCell, needsQuoting_eq_any,
        escapeQuotes_eq_flatMap]
  · decide

/-- C10: the header line joins the raw column labels with commas and never
applies the quoting rule: a label containing a comma is emitted unescaped
in the header, while the identical string in a data cell is quoted. The
concrete export below has label `Name,First` for key `a`: the header line
reads `Name,First,B` while the data cell for the same string reads
`"Name,First"`. -/
theorem csv_header_unescaped :
    handleExport [("a", "Name,First"), ("b", "B")]
      [[("a", CellValue.vstr "Name,First")]]
      = "Name,First,B\n\"Name,First\","
    ∧ needsQuoting "Name,First" = true
    ∧ exportCellValue (some (.vstr "Name,First")) = "\"Name,First\"" := by
  refine ⟨?_, by decide, by decide⟩
  decide

/-! ## Column visibility (FilterableTable.tsx lines 36-37, 55-57, 85-95) -/

/-- The initial visible set: `defaultVisibleColumns || allColumnKeys`.
In JavaScript an empty array is truthy, so a supplied empty list is used
as-is. -/
def initialVisibleColumns (defaultVisibleColumns : Option (List String))
    (allColumnKeys : List String) : List String :=
  match defaultVisibleColumns with
  | some v => v
  | none => allColumnKeys

/-- `toggleColumn` (lines 85-92): removing an included key is allowed only
while more than one column is visible; otherwise the key is appended. -/
def toggleColumn (columnKey : String) (current : List String) : List String :=
  if columnKey ∈ current then
    if current.length > 1 then current.filter (fun k => k ≠ columnKey)
    else current
  else current ++ [columnKey]

/-- `selectAllColumns` (line 94). -/
def selectAllColumns (allColumnKeys : List String) : List String :=
  allColumnKeys

/-- `selectNoColumns` (line 95): `allColumnKeys[0] ? [allColumnKeys[0]] : []`
is a JavaScript truthiness test on the first key, so both a missing first
key and a falsy empty-string first key yield the empty list. -/
def selectNoColumns (allColumnKeys : List String) : List String :=
  match allColumnKeys with
  | [] => []
  | k :: _ => if k = "" then [] else [k]

/-- The visible-column states reachable through initialization and the
three visibility operations. -/
inductive VisibleReachable (allColumnKeys : List String)
    (defaultVisibleColumns : Option (List String)) : List String → Prop
  | init : VisibleReachable allColumnKeys defaultVisibleColumns
      (initialVisibleColumns defaultVisibleColumns allColumnKeys)
  | toggle (k : String) (s : List String) :
      VisibleReachable allColumnKeys defaultVisibleColumns s →
      VisibleReachable allColumnKeys defaultVisibleColumns (toggleColumn k s)
  | selectAll (s : List String) :
      VisibleReachable allColumnKeys defaultVisibleColumns s →
      VisibleReachable allColumnKeys defaultVisibleColumns
        (selectAllColumns allColumnKeys)
  | selectNone (s : List String) :
      VisibleReachable allColumnKeys defaultVisibleColumns s →
      VisibleReachable allColumnKeys defaultVisibleColumns
        (selectNoColumns allColumnKeys)

/-- C8 (counterexample): initializing with an explicitly empty
`defaultVisibleColumns` yields the empty visible set — `[] || keys` keeps
`[]` because an empty array is truthy — so the empty state is reachable
and the unconditional non-emptiness claim fails. -/
theorem visible_columns_empty_counterexample :
    VisibleReachable ["a", "b"] (some []) []
    ∧ initialVisibleColumns (some []) ["a", "b"] = [] := by
  exact ⟨VisibleReachable.init, rfl⟩

/-- With no duplicates, removing one key keeps at least one element of a
list of length at least two. -/
theorem filter_ne_nonempty (s : List String) (k : String)
    (hnd : s.Nodup) (hlen : 1 < s.length) :
    s.filter (fun x => x ≠ k) ≠ [] := by
  match s, hlen with
  | x :: y :: rest, _ =>
    have hxy : x ≠ y := by
      have := hnd
      simp only [List.nodup_cons, List.mem_cons] at this
      exact fun h => this.1 (Or.inl h)
    by_cases hxk : x = k
    · have hyk : y ≠ k := fun h => hxy (hxk.trans h.symm)
      intro hcon
      have : y ∈ List.filter (fun x => decide (x ≠ k)) (x :: y :: rest) := by
        simp [List.mem_filter, hyk]
      rw [hcon] at this
      exact absurd this (List.not_mem_nil y)
    · intro hcon
      have : x ∈ List.filter (fun x => decide (x ≠ k)) (x :: y :: rest) := by
        simp [List.mem_filter, hxk]
      rw [hcon] at this
      exact absurd this (List.not_mem_nil x)

/-- C8 (amended): provided at least one column is declared, the first
declared key is not the falsy empty string, the declared keys are
distinct, and `defaultVisibleColumns` — when supplied — is non-empty and
duplicate-free, every reachable visible-column state is non-empty;
moreover an attempt to hide the last visible column is always rejected
with the state unchanged. -/
theorem visible_columns_invariant (allColumnKeys : List String)
    (defaultVisibleColumns : Option (List String))
    (hkeys : allColumnKeys ≠ []) (hknd : allColumnKeys.Nodup)
    (hfirst : ∀ k rest, allColumnKeys = k :: rest → k ≠ "")
    (hdef : ∀ v, defaultVisibleColumns = some v → v ≠ [] ∧ v.Nodup) :
    (∀ s, VisibleReachable allColumnKeys defaultVisibleColumns s → s ≠ [])
    ∧ (∀ k s, k ∈ s → s.length = 1 → toggleColumn k s = s) := by
  constructor
  · have key : ∀ s, VisibleReachable allColumnKeys defaultVisibleColumns s →
        s ≠ [] ∧ s.Nodup := by
      intro s hreach
      induction hreach with
      | init =>
        match h : defaultVisibleColumns with
        | some v => exact ⟨(hdef v rfl).1, (hdef v rfl).2⟩
        | none => exact ⟨hkeys, hknd⟩
      | toggle k s hs ih =>
        unfold toggleColumn
        by_cases hmem : k ∈ s
        · by_cases hlen : s.length > 1
          · simp only [hmem, if_pos, hlen]
            refine ⟨?_, ih.2.filter _⟩
            simpa using filter_ne_nonempty s k ih.2 hlen
          · simp only [hmem, if_pos, hlen, if_neg]
            exact ih
        · simp only [hmem, if_neg]
          refine ⟨by simp, ?_⟩
          have hk : k ∉ s := hmem
          simpa [List.nodup_append] using ⟨ih.2, hk⟩
      | selectAll s hs ih => exact ⟨hkeys, hknd⟩
      | selectNone s hs ih =>
        cases hk : allColumnKeys with
        | nil => exact absurd hk hkeys
        | cons k rest =>
          have hkne : k ≠ "" := hfirst k rest hk
          exact ⟨by simp [selectNoColumns, hkne],
            by simp [selectNoColumns, hkne]⟩
    exact fun s h => (key s h).1
  · intro k s hmem hlen
    match s, hlen with
    | [x], _ =>
      have hxk : k = x := by simpa using hmem
      subst hxk
      simp [toggleColumn]

/-- Witness for C8 (amended): with two distinct declared columns and no
default, the empty set is unreachable. -/
theorem visible_columns_invariant_witness :
    ¬ VisibleReachable ["a", "b"] none [] := fun h =>
  (visible_columns_invariant ["a", "b"] none (by decide) (by decide)
    (fun k rest hkr => by cases hkr; decide)
    (fun v hv => by cases hv)).1 [] h rfl

/-! ## Per-condition value store (Card.tsx lines 33-45) -/

/-- One cached entry of the store: the typed inputs of a condition. -/
structure FilterValue where
  column : String
  regex : String
  caseSensitive : Bool
deriving DecidableEq, Repr

/-- The module-level `filterValuesStore` `Map`, as an association list
(first matching key wins, like `Map.get`). In the code this is a single
process-wide object shared by every table instance in the page. -/
abbrev FilterValuesStore := List (String × FilterValue)

/-- `Map.prototype.set`: replace the entry or append a new one. -/
def setFilterValue (store : FilterValuesStore) (id : String)
    (v : FilterValue) : FilterValuesStore :=
  match store with
  | [] => [(id, v)]
  | (k, w) :: rest =>
    if k = id then (k, v) :: rest else (k, w) :: setFilterValue rest id v

/-- `getFilterValue` (Card.tsx lines 36-41): if the id is absent the
defaults are inserted first; returns the entry together with the
(possibly) updated store. -/
def getFilterValue (store : FilterValuesStore) (id : String)
    (defv : FilterValue) : FilterValue × FilterValuesStore :=
  match store.lookup id with
  | some v => (v, store)
  | none => (defv, setFilterValue store id defv)

/-- A sequence of edits (`setFilterValue` calls) applied in order. -/
def applyEdits (store : FilterValuesStore)
    (edits : List (String × FilterValue)) : FilterValuesStore :=
  edits.foldl (fun s e => setFilterValue s e.1 e.2) store

/-- C9 (counterexample): the store is process-wide, so when two table
instances happen to share a condition id, an edit made through one changes
the value the other reads back: instance A caches `{name, ^a, false}`
under id `c1`, instance B then caches `{age, 9, true}` under the same id,
and A's subsequent read returns B's entry. -/
theorem value_store_contamination_counterexample :
    (getFilterValue
        (setFilterValue (setFilterValue [] "c1" ⟨"name", "^a", false⟩)
          "c1" ⟨"age", "9", true⟩)
        "c1" ⟨"name", "^a", false⟩).1
      = ⟨"age", "9", true⟩
    ∧ (⟨"age", "9", true⟩ : FilterValue) ≠ ⟨"name", "^a", false⟩ := by
  constructor
  · decide
  · decide

theorem lookup_setFilterValue_ne (store : FilterValuesStore)
    (a b : String) (v : FilterValue) (hne : b ≠ a) :
    (setFilterValue store b v).lookup a = store.lookup a := by
  induction store with
  | nil => simp [setFilterValue, List.lookup, beq_false_of_ne hne.symm]
  | cons p rest ih =>
    by_cases hk : p.1 = b
    · simp only [setFilterValue, hk, if_pos]
      simp [List.lookup, hk, beq_false_of_ne (Ne.symm hne)]
    · simp only [setFilterValue]
      rw [if_neg (by exact fun h => hk h)]
      by_cases ha : p.1 = a
      · simp [List.lookup, ha]
      · simp [List.lookup, beq_false_of_ne ha, ih]

theorem lookup_applyEdits_ne (edits : List (String × FilterValue))
    (store : FilterValuesStore) (a : String)
    (h : ∀ e ∈ edits, e.1 ≠ a) :
    (applyEdits store edits).lookup a = store.lookup a := by
  induction edits generalizing store with
  | nil => rfl
  | cons e rest ih =>
    simp only [applyEdits, List.foldl_cons]
    rw [show (List.foldl (fun s e => setFilterValue s e.1 e.2)
        (setFilterValue store e.1 e.2) rest)
      = applyEdits (setFilterValue store e.1 e.2) rest from rfl]
    rw [ih (setFilterValue store e.1 e.2) (fun x hx => h x (by simp [hx]))]
    exact lookup_setFilterValue_ne store a e.1 e.2 (h e (by simp))

/-- C9 (amended): isolation holds exactly when the two instances' condition
ids stay disjoint: any sequence of edits made under ids different from
`a` leaves the value read back for `a` unchanged. Since the store is a
process-wide singleton keyed only by condition id, this is the strongest
isolation the code provides; with a shared id the counterexample above
shows cross-instance contamination. -/
theorem value_store_isolation (store : FilterValuesStore)
    (edits : List (String × FilterValue)) (a : String) (defv : FilterValue)
    (h : ∀ e ∈ edits, e.1 ≠ a) :
    (getFilterValue (applyEdits store edits) a defv).1
      = (getFilterValue store a defv).1 := by
  unfold getFilterValue
  rw [lookup_applyEdits_ne edits store a h]
  cases store.lookup a <;> rfl

/-- Witness for C9 (amended): instance B's edits under ids `c2`, `c3`
leave instance A's cached value for `c1` untouched. -/
theorem value_store_isolation_witness :
    (getFilterValue
        (applyEdits [("c1", ⟨"name", "^a", false⟩)]
          [("c2", ⟨"age", "9", true⟩), ("c3", ⟨"city", "x", false⟩)])
        "c1" ⟨"name", "", false⟩).1
      = (getFilterValue [("c1", ⟨"name", "^a", false⟩)]
          "c1" ⟨"name", "", false⟩).1 :=
  value_store_isolation [("c1", ⟨"name", "^a", false⟩)]
    [("c2", ⟨"age", "9", true⟩), ("c3", ⟨"city", "x", false⟩)]
    "c1" ⟨"name", "", false⟩ (by decide)

end FilterableTable
